import Mathlib

/-!
# Verification of the STWBODE-Traffic data pipeline (`utils_node2vec.py`)

A shallow embedding of the data-preparation module of the STWBODE-Traffic
repository, together with theorems settling the specification's claims
about it.  Python floats are modelled as rationals (`ℚ`) where the code
only moves values around, and as reals (`ℝ`) where a square root is
mathematically meaningful; `float('inf')` entries are modelled as `none`
in an `Option`-valued matrix; numpy matrices become functions out of
`Nat × Nat`, and the Python `for` loops that populate them become left
folds over the lists of indices the loops range over.

External libraries are embedded by their interfaces: `fastdtw` is an
arbitrary pairwise distance function, `node2vec`'s embedding table an
arbitrary partial map from node index to vector, and `np.random.choice`
an arbitrary sampler constrained by its documented contract (a hypothesis
of the relevant theorem, not an axiom).
-/

/-- A single in-place assignment `M[i][j] = v` on a matrix represented as a
total function from index pairs. -/
def updM {α : Type} (M : Nat × Nat → α) (i j : Nat) (v : α) : Nat × Nat → α :=
  fun p => if p = (i, j) then v else M p

/-! ## Semantic (DTW) distance matrix builder (`read_data`, first cache block)

The code computes `dtw_distance[i][j] = fastdtw(data_mean[i], data_mean[j],
radius=6)[0]` for `j` in `range(i, n)`, then mirrors the strict upper
triangle into the lower one.  `fastdtw` is an external library, so the
pairwise engine is a parameter `fd`. -/

/-- The first double loop of the DTW block: for `i in range(n)`, for
`j in range(i, n)`, `dtw_distance[i][j] = fd i j`, starting from the zero
matrix (`np.zeros`). -/
def dtw_upper {α : Type} [Zero α] (n : Nat) (fd : Nat → Nat → α) : Nat × Nat → α :=
  (List.range n).foldl
    (fun N i => (List.range' i (n - i)).foldl (fun N j => updM N i j (fd i j)) N)
    (fun _ => 0)

/-- The second double loop of the DTW block: for `i in range(n)`, for
`j in range(i)`, `dtw_distance[i][j] = dtw_distance[j][i]`. -/
def dtw_mirror {α : Type} (n : Nat) (M : Nat × Nat → α) : Nat × Nat → α :=
  (List.range n).foldl
    (fun N i => (List.range i).foldl (fun N j => updM N i j (N (j, i))) N)
    M

/-- The finished semantic distance matrix: upper triangle computed by the
alignment engine `fd`, lower triangle mirrored from it. -/
def dtw_distance_matrix {α : Type} [Zero α] (n : Nat) (fd : Nat → Nat → α) :
    Nat × Nat → α :=
  dtw_mirror n (dtw_upper n fd)

/-! ## Spatial distance matrix builder (`read_data`, second cache block)

`dist_matrix = np.zeros((N, N)) + float('inf')`, then for every parsed csv
row `(start, end, d)` (header skipped): `dist_matrix[start][end] = d` and
`dist_matrix[end][start] = d`.  Infinity is modelled as `none`. -/

/-- Processing of one parsed edge-list row `(start, (end, d))`: both
directions are set to `d`. -/
def spatial_step (M : Nat × Nat → Option ℚ) (row : Nat × Nat × ℚ) :
    Nat × Nat → Option ℚ :=
  updM (updM M row.1 row.2.1 (some row.2.2)) row.2.1 row.1 (some row.2.2)

/-- The spatial distance matrix built from the list of parsed edge rows,
starting from the all-infinity matrix. -/
def spatial_dist_matrix (rows : List (Nat × Nat × ℚ)) : Nat × Nat → Option ℚ :=
  rows.foldl spatial_step (fun _ => none)

/-- Whether the parsed row `row` writes to cell `(i, j)` (in either of the
two directions it sets). -/
def touches (row : Nat × Nat × ℚ) (i j : Nat) : Bool :=
  (row.1 == i && row.2.1 == j) || (row.1 == j && row.2.1 == i)

/-! ## Graph constructor (`generate_graph`)

`G = nx.Graph()`; for `i` and `j` in `selected_nodes`, if
`dist_matrix[i, j] != float('inf')` then `G.add_edge(i, j, weight=d)`.  A
`networkx` undirected graph is modelled by its weighted adjacency map:
`add_edge` sets both directions. -/

/-- `nx.Graph.add_edge(i, j, weight=w)`: both `(i, j)` and `(j, i)` get
weight `w` (an existing edge is overwritten). -/
def add_edge (adj : Nat × Nat → Option ℚ) (i j : Nat) (w : ℚ) :
    Nat × Nat → Option ℚ :=
  updM (updM adj i j (some w)) j i (some w)

/-- The weighted adjacency map of the graph `generate_graph` returns: the
double loop over `selected_nodes` adds an edge for every pair whose
distance-matrix entry is finite.  The loop does not filter `i == j`. -/
def generate_graph (selected_nodes : List Nat) (dist_matrix : Nat × Nat → Option ℚ) :
    Nat × Nat → Option ℚ :=
  selected_nodes.foldl
    (fun adj i => selected_nodes.foldl
      (fun adj j =>
        match dist_matrix (i, j) with
        | some w => add_edge adj i j w
        | none => adj)
      adj)
    (fun _ => none)

/-- Reachability in the (undirected) graph given by an adjacency map:
`j` is reachable from `i` when a chain of present edges connects them. -/
inductive Reach (adj : Nat × Nat → Option ℚ) : Nat → Nat → Prop
  | refl (i : Nat) : Reach adj i i
  | step {i j k : Nat} : Reach adj i j → (adj (j, k)).isSome → Reach adj i k

/-- The number of undirected edges among nodes `< n`: unordered pairs
`i ≤ j` whose adjacency entry is present. -/
def edgeCountUpTo (adj : Nat × Nat → Option ℚ) (n : Nat) : Nat :=
  ((List.range n).map
    (fun i => ((List.range n).filter
      (fun j => decide (i ≤ j) && (adj (i, j)).isSome)).length)).sum

/-- The synthetic 4-node distance matrix of the end-to-end test: the only
finite off-diagonal distances are between nodes (0,1) and (2,3). -/
def dist4 : Nat × Nat → Option ℚ :=
  fun p =>
    if p = (0, 1) ∨ p = (1, 0) then some 1
    else if p = (2, 3) ∨ p = (3, 2) then some 2
    else none

/-- The graph the constructor builds from `dist4` over all four nodes. -/
def g4 : Nat × Nat → Option ℚ :=
  generate_graph [0, 1, 2, 3] dist4

/-! ## Node subset selection (`read_data`)

`selected_nodes = np.random.choice(num_nodes, 100, replace=False)` when
`num_nodes > 100`, else `np.arange(num_nodes)`.  The sampler is a
parameter `choice`; its documented contract (`choice n k` returns `k`
distinct values drawn from `[0, n)`, defined when `k ≤ n`) is a
hypothesis of the theorem about this definition. -/

/-- The node subset `read_data` selects. -/
def select_nodes (choice : Nat → Nat → List Nat) (num_nodes : Nat) : List Nat :=
  if num_nodes > 100 then choice num_nodes 100 else List.range num_nodes

/-! ## Similarity matrix derivation (`read_data`, final double loop)

`node_embeddings` maps a node index to its learned vector when the node
appeared in a walk.  The loop writes the norm of the embedding difference
into BOTH `dtw_matrix` and `sp_matrix`:

    for i in selected_nodes:
      for j in selected_nodes:
        if i != j and i in node_embeddings and j in node_embeddings:
          dtw_matrix[i, j] = np.linalg.norm(node_embeddings[i] - node_embeddings[j])
          sp_matrix[i, j] = np.linalg.norm(node_embeddings[i] - node_embeddings[j])
-/

/-- Elementwise difference of two embedding vectors. -/
def vsub {α : Type} [Sub α] (u v : List α) : List α :=
  List.zipWith (fun a b => a - b) u v

/-- `np.linalg.norm`: the Euclidean norm of a vector. -/
noncomputable def euclNorm (v : List ℝ) : ℝ :=
  Real.sqrt ((v.map fun a => a ^ 2).sum)

/-- The final double loop of `read_data`, generic in the norm `nrm` it
writes: starting from two zero `N × N` matrices, each ordered pair of
distinct subset nodes that both have embeddings gets the norm of the
embedding difference written into both matrices. -/
def read_data_similarity {α : Type} [Sub α] [Zero α] (nrm : List α → α)
    (node_embeddings : Nat → Option (List α)) (selected_nodes : List Nat) :
    (Nat × Nat → α) × (Nat × Nat → α) :=
  selected_nodes.foldl
    (fun Q i => selected_nodes.foldl
      (fun Q j =>
        if i ≠ j ∧ (node_embeddings i).isSome ∧ (node_embeddings j).isSome then
          (updM Q.1 i j
            (nrm (vsub ((node_embeddings i).getD []) ((node_embeddings j).getD []))),
           updM Q.2 i j
            (nrm (vsub ((node_embeddings i).getD []) ((node_embeddings j).getD []))))
        else Q)
      Q)
    (fun _ => 0, fun _ => 0)

/-- The pair `(dtw_matrix, sp_matrix)` that `read_data` derives from the
embedding table, with the concrete norm the code uses. -/
noncomputable def read_data_matrices (node_embeddings : Nat → Option (List ℝ))
    (selected_nodes : List Nat) : (Nat × Nat → ℝ) × (Nat × Nat → ℝ) :=
  read_data_similarity euclNorm node_embeddings selected_nodes

/-- The single-matrix version of the same loop, used to characterise both
components of `read_data_similarity`. -/
def derive_one {α : Type} [Sub α] [Zero α] (nrm : List α → α)
    (node_embeddings : Nat → Option (List α)) (selected_nodes : List Nat) :
    Nat × Nat → α :=
  selected_nodes.foldl
    (fun M i => selected_nodes.foldl
      (fun M j =>
        if i ≠ j ∧ (node_embeddings i).isSome ∧ (node_embeddings j).isSome then
          updM M i j
            (nrm (vsub ((node_embeddings i).getD []) ((node_embeddings j).getD [])))
        else M)
      M)
    (fun _ => 0)

/-! ## Graph adjacency normalizer (`get_normalized_adj`)

The input is a numpy array, modelled by its shape and a value at every
multi-index; `A.ndim` is `A.shape.length`.  The square-root function is a
parameter `sq` so that the definition stays generic; the theorems
instantiate it with `Real.sqrt`. -/

/-- A numpy ndarray: a shape together with the value at each multi-index
(indices outside the shape are immaterial). -/
structure NDArray (α : Type) where
  shape : List Nat
  val : List Nat → α

/-- `get_normalized_adj(A)`: raises a `ValueError` ("shape error") when
`A.ndim != 2`, else computes `D` as the vector of row sums, floors every
entry `<= 10e-5` (that is, `1/10⁴`) to `10e-5`, forms
`A_wave = diag * A * diag` with `diag = 1/sq(D)` applied entrywise (the
broadcasting product of the code), and returns
`alpha/2 * (np.eye(n) + A_wave)` with `alpha = 0.8`. -/
def get_normalized_adj {α : Type} [LinearOrderedField α] (sq : α → α)
    (A : NDArray α) : Except String (NDArray α) :=
  if A.shape.length ≠ 2 then
    Except.error "The adjacency matrix A must be 2-dimensional"
  else
    let n := A.shape.headD 0
    let m := A.shape.getD 1 0
    let alpha : α := 8 / 10
    let D : Nat → α := fun i => ((List.range m).map fun j => A.val [i, j]).sum
    let Dc : Nat → α := fun i => if D i ≤ 1 / 10000 then 1 / 10000 else D i
    let diag : Nat → α := fun i => (sq (Dc i))⁻¹
    let A_wave : Nat → Nat → α := fun i j => diag i * A.val [i, j] * diag j
    let A_reg : Nat → Nat → α := fun i j =>
      alpha / 2 * ((if i = j then 1 else 0) + A_wave i j)
    Except.ok
      { shape := [n, n]
        val := fun idx =>
          match idx with
          | [i, j] => A_reg i j
          | _ => 0 }

/-- Modelled from the spec's words, for comparison with the code: the
normalizer as the matrix formula `(alpha/2) · (I + D^(-1/2) · A · D^(-1/2))`
with `alpha = 0.8`, `D` the row-sum vector floored at `1/10⁴`, and
`D^(-1/2)` the diagonal matrix of reciprocal square roots. -/
def specNormalizedAdj {α : Type} [LinearOrderedField α] (sq : α → α) {n : Nat}
    (M : Matrix (Fin n) (Fin n) α) : Matrix (Fin n) (Fin n) α :=
  (8 / 10 / 2 : α) •
    ((1 : Matrix (Fin n) (Fin n) α) +
      Matrix.diagonal
          (fun i => (sq (if (∑ j, M i j) ≤ 1 / 10000 then 1 / 10000
            else ∑ j, M i j))⁻¹) *
        M *
        Matrix.diagonal
          (fun i => (sq (if (∑ j, M i j) ≤ 1 / 10000 then 1 / 10000
            else ∑ j, M i j))⁻¹))

/-! ## Windowed dataset and split generation (`MyDataset`, `generate_dataset`)

The normalized tensor is a list of `T` rows, each row an `N × F` table of
rationals.  `MyDataset.__init__` truncates its float split bounds with
Python's `int(...)` and slices the tensor; `__len__` is the Python integer
`rows - H - P + 1` (which may be negative, hence `ℤ`); `__getitem__`
permutes the history block to node-major (`permute(1, 0, 2)`, an outer
transpose) and keeps only feature channel 0 of the prediction block
(`[:, :, 0]`, the head of each cell) before transposing it
(`permute(1, 0)`). -/

/-- Python's `int(q)` on a float: truncation toward zero. -/
def pyInt (q : ℚ) : ℤ :=
  if 0 ≤ q then ⌊q⌋ else ⌈q⌉

/-- The Python slice `l[a:b]` for `0 ≤ a ≤ b` (clamped at the end of the
list, empty when `b ≤ a`; the negative-index wraparound never arises in
this pipeline). -/
def sliceRows {β : Type} (l : List β) (a b : Nat) : List β :=
  (l.drop a).take (b - a)

/-- The state of a constructed `MyDataset`: the sliced split of the data
plus the two window lengths. -/
structure MyDataset where
  data : List (List (List ℚ))
  his_length : Nat
  pred_length : Nat

/-- `MyDataset.__init__(data, split_start, split_end, his_length,
pred_length)`: the split bounds are truncated with `int(...)` and the data
sliced to `data[split_start:split_end]`. -/
def MyDataset.make (data : List (List (List ℚ))) (split_start split_end : ℚ)
    (his_length pred_length : Nat) : MyDataset :=
  { data := sliceRows data (pyInt split_start).toNat (pyInt split_end).toNat
    his_length := his_length
    pred_length := pred_length }

/-- `MyDataset.__len__`: `self.data.shape[0] - self.his_length -
self.pred_length + 1`, as a (possibly negative) Python integer. -/
def MyDataset.len (ds : MyDataset) : ℤ :=
  (ds.data.length : ℤ) - ds.his_length - ds.pred_length + 1

/-- `MyDataset.__getitem__(index)`: the pair
`(data[index : index+H].permute(1, 0, 2),
  data[index+H : index+H+P][:, :, 0].permute(1, 0))`. -/
def MyDataset.getItem (ds : MyDataset) (index : Nat) :
    List (List (List ℚ)) × List (List ℚ) :=
  ((sliceRows ds.data index (index + ds.his_length)).transpose,
   ((sliceRows ds.data (index + ds.his_length)
      (index + ds.his_length + ds.pred_length)).map
        (fun row => row.map (fun cell => cell.headD 0))).transpose)

/-- `generate_dataset`: the three datasets built over
`[0, T*train_ratio)`, `[T*train_ratio, T*(train_ratio+valid_ratio))` and
`[T*(train_ratio+valid_ratio), T)` (bounds truncated inside
`MyDataset.__init__`). -/
def generate_dataset (data : List (List (List ℚ))) (train_ratio valid_ratio : ℚ)
    (his_length pred_length : Nat) : MyDataset × MyDataset × MyDataset :=
  let T : ℚ := (data.length : ℚ)
  (MyDataset.make data 0 (T * train_ratio) his_length pred_length,
   MyDataset.make data (T * train_ratio) (T * (train_ratio + valid_ratio))
     his_length pred_length,
   MyDataset.make data (T * (train_ratio + valid_ratio)) T his_length pred_length)

/-- The three integer row ranges the splits of `generate_dataset` receive
after the `int(...)` truncation in `MyDataset.__init__`. -/
def splitRanges (T : Nat) (train_ratio valid_ratio : ℚ) :
    (ℤ × ℤ) × (ℤ × ℤ) × (ℤ × ℤ) :=
  ((0, pyInt (T * train_ratio)),
   (pyInt (T * train_ratio), pyInt (T * (train_ratio + valid_ratio))),
   (pyInt (T * (train_ratio + valid_ratio)), (T : ℤ)))

/-- Membership of an integer in a half-open integer range. -/
def memRange (t : ℤ) (r : ℤ × ℤ) : Prop :=
  r.1 ≤ t ∧ t < r.2

/-- The error kinds relevant to iterating a dataset through a loader. -/
inductive PyError where
  | indexError : PyError
  | valueError : PyError
deriving DecidableEq

/-- Modelled from torch's `DataLoader(dataset, shuffle=True)` and Python's
`len` contract, which are external to the repository: the loader's
`RandomSampler` requires a positive number of samples and raises a
`ValueError` otherwise (a negative `__len__` already raises `ValueError`
inside Python's `len()`), so a dataset whose reported length is `≤ 0`
fails with a `ValueError` before any example is produced; otherwise every
index below the length is fetched (the shuffle order is immaterial here
and left deterministic). -/
def loaderExamples (ds : MyDataset) :
    Except PyError (List (List (List (List ℚ)) × List (List ℚ))) :=
  if ds.len ≤ 0 then Except.error PyError.valueError
  else Except.ok ((List.range ds.len.toNat).map ds.getItem)

/-- A concrete 100-row, 1-node, 1-feature tensor: row `t` is `[[t]]`. -/
def data100 : List (List (List ℚ)) :=
  (List.range 100).map fun t : Nat => [[(t : ℚ)]]

/-- A concrete 20-row, 1-node, 1-feature tensor: row `t` is `[[t]]`. -/
def data20 : List (List (List ℚ)) :=
  (List.range 20).map fun t : Nat => [[(t : ℚ)]]

/-- A concrete two-node embedding table used by witnesses. -/
noncomputable def embed2 : Nat → Option (List ℝ) :=
  fun n => if n = 0 then some [1, 0] else if n = 1 then some [0, 0] else none

/-- A concrete symmetric non-negative 2-by-2 input for the adjacency
normalizer: zero diagonal, ones off the diagonal. -/
noncomputable def adj2 : NDArray ℝ :=
  ⟨[2, 2], fun idx =>
    match idx with
    | [i, j] => if i = j then 0 else 1
    | _ => 0⟩

/-! ## Characterisation of the loop folds -/

/-- One row of conditional writes: after `for j in js: if c i j then
M[i][j] = d i j`, a cell holds `d i p.2` exactly when it lies in row `i`
at a column of `js` satisfying the condition, and is untouched otherwise. -/
theorem foldl_row_apply {α : Type} (c : Nat → Nat → Prop)
    [∀ i j, Decidable (c i j)] (d : Nat → Nat → α) (i : Nat) (js : List Nat)
    (M : Nat × Nat → α) (p : Nat × Nat) :
    (js.foldl (fun N j => if c i j then updM N i j (d i j) else N) M) p =
      if p.1 = i ∧ p.2 ∈ js ∧ c i p.2 then d i p.2 else M p := by
  induction js generalizing M with
  | nil => simp
  | cons j js ih =>
    simp only [List.foldl_cons, ih, List.mem_cons,
      apply_ite (fun f : Nat × Nat → α => f p), updM]
    by_cases h1 : p.1 = i <;> by_cases h2 : p.2 = j <;>
      by_cases h3 : p.2 ∈ js <;> by_cases h4 : c i p.2 <;>
      simp_all [Prod.ext_iff]

/-- The nested conditional-write loop `for i in is: for j in cols i: if
c i j then M[i][j] = d i j`, characterised cellwise. -/
theorem foldl_table_apply {α : Type} (c : Nat → Nat → Prop)
    [∀ i j, Decidable (c i j)] (d : Nat → Nat → α) (cols : Nat → List Nat)
    (is : List Nat) (M : Nat × Nat → α) (p : Nat × Nat) :
    (is.foldl
        (fun N i => (cols i).foldl
          (fun N j => if c i j then updM N i j (d i j) else N) N) M) p =
      if p.1 ∈ is ∧ p.2 ∈ cols p.1 ∧ c p.1 p.2 then d p.1 p.2 else M p := by
  induction is generalizing M with
  | nil => simp
  | cons i is ih =>
    simp only [List.foldl_cons, ih, List.mem_cons, foldl_row_apply]
    by_cases h1 : p.1 = i <;> by_cases h2 : p.1 ∈ is <;>
      by_cases h3 : p.2 ∈ cols p.1 <;> by_cases h4 : c p.1 p.2 <;>
      simp_all

/-- One row of unconditional writes `for j in js: M[i][j] = d i j`. -/
theorem foldl_row_apply_uc {α : Type} (d : Nat → Nat → α) (i : Nat)
    (js : List Nat) (M : Nat × Nat → α) (p : Nat × Nat) :
    (js.foldl (fun N j => updM N i j (d i j)) M) p =
      if p.1 = i ∧ p.2 ∈ js then d i p.2 else M p := by
  have h := foldl_row_apply (fun _ _ => True) d i js M p
  simp only [if_true, and_true] at h
  rw [← h]

/-- The nested unconditional-write loop `for i in is: for j in cols i:
M[i][j] = d i j` over row-dependent column lists. -/
theorem foldl_table_apply_uc {α : Type} (d : Nat → Nat → α)
    (cols : Nat → List Nat) (is : List Nat) (M : Nat × Nat → α) (p : Nat × Nat) :
    (is.foldl (fun N i => (cols i).foldl (fun N j => updM N i j (d i j)) N) M) p =
      if p.1 ∈ is ∧ p.2 ∈ cols p.1 then d p.1 p.2 else M p := by
  have h := foldl_table_apply (fun _ _ => True) d cols is M p
  simp only [if_true, and_true] at h
  rw [← h]

/-- Writing a cell then reading it. -/
theorem updM_same {α : Type} (M : Nat × Nat → α) (i j : Nat) (v : α) :
    updM M i j v (i, j) = v :=
  if_pos rfl

/-- Writing a cell leaves every other cell unchanged. -/
theorem updM_ne {α : Type} (M : Nat × Nat → α) (i j : Nat) (v : α)
    {p : Nat × Nat} (h : p ≠ (i, j)) : updM M i j v p = M p :=
  if_neg h

/-! ## C5: the semantic distance matrix is symmetric -/

/-- One row of the mirroring loop `for j in js: M[i][j] = M[j][i]`, when
every column index of `js` is below `i`: the reads are from cells the row
never writes, so each written cell gets the initial value at the mirrored
position. -/
theorem foldl_mirror_row_apply {α : Type} (i : Nat) (js : List Nat)
    (h : ∀ j ∈ js, j < i) (M : Nat × Nat → α) (p : Nat × Nat) :
    (js.foldl (fun N j => updM N i j (N (j, i))) M) p =
      if p.1 = i ∧ p.2 ∈ js then M (p.2, p.1) else M p := by
  obtain ⟨a, b⟩ := p
  induction js generalizing M with
  | nil => simp
  | cons j js ih =>
    have hj : j < i := h j (List.mem_cons_self j js)
    have hrest : ∀ x ∈ js, x < i := fun x hx => h x (List.mem_cons_of_mem j hx)
    simp only [List.foldl_cons, ih hrest, List.mem_cons]
    by_cases h1 : a = i
    · subst h1
      by_cases h3 : b ∈ js
      · have hb : b < a := hrest b h3
        have hne : ((b : Nat), a) ≠ (a, j) := by
          intro hc
          rw [Prod.mk.injEq] at hc
          omega
        rw [if_pos ⟨rfl, h3⟩, if_pos ⟨rfl, Or.inr h3⟩, updM_ne _ _ _ _ hne]
      · by_cases h2 : b = j
        · subst h2
          rw [if_neg (fun hc => h3 hc.2), if_pos ⟨rfl, Or.inl rfl⟩, updM_same]
        · have hne : ((a : Nat), b) ≠ (a, j) := by
            intro hc
            rw [Prod.mk.injEq] at hc
            exact h2 hc.2
          have hno : ¬(a = a ∧ (b = j ∨ b ∈ js)) := by
            rintro ⟨-, hc | hc⟩
            · exact h2 hc
            · exact h3 hc
          rw [if_neg (fun hc => h3 hc.2), if_neg hno, updM_ne _ _ _ _ hne]
    · have hne : ((a : Nat), b) ≠ (i, j) := by
        intro hc
        rw [Prod.mk.injEq] at hc
        exact h1 hc.1
      rw [if_neg (fun hc => h1 hc.1), if_neg (fun hc => h1 hc.1),
        updM_ne _ _ _ _ hne]

/-- The full mirroring loop `for i in is: for j in range(i): M[i][j] =
M[j][i]`: cells strictly below the diagonal in a visited row receive the
initial value of their mirror cell; all other cells keep their value. -/
theorem foldl_mirror_apply {α : Type} (is : List Nat) (M : Nat × Nat → α)
    (p : Nat × Nat) :
    (is.foldl
        (fun N i => (List.range i).foldl (fun N j => updM N i j (N (j, i))) N)
        M) p =
      if p.1 ∈ is ∧ p.2 < p.1 then M (p.2, p.1) else M p := by
  obtain ⟨a, b⟩ := p
  induction is generalizing M with
  | nil => simp
  | cons i is ih =>
    have hrow := foldl_mirror_row_apply i (List.range i)
      (fun x hx => List.mem_range.mp hx) M
    simp only [List.foldl_cons, ih, List.mem_cons]
    by_cases h3 : b < a
    · by_cases h2 : a ∈ is
      · have hni : ¬(((b : Nat), a).1 = i ∧ ((b : Nat), a).2 ∈ List.range i) := by
          simp only [List.mem_range]
          omega
        rw [if_pos ⟨h2, h3⟩, if_pos ⟨Or.inr h2, h3⟩, hrow (b, a), if_neg hni]
      · rw [if_neg (fun hc => h2 hc.1), hrow (a, b)]
        by_cases h1 : a = i
        · subst h1
          rw [if_pos ⟨rfl, List.mem_range.mpr h3⟩, if_pos ⟨Or.inl rfl, h3⟩]
        · have hni : ¬(((a : Nat), b).1 = i ∧ ((a : Nat), b).2 ∈ List.range i) :=
            fun hc => h1 hc.1
          have hni2 : ¬((a = i ∨ a ∈ is) ∧ b < a) := by
            rintro ⟨hc | hc, -⟩
            · exact h1 hc
            · exact h2 hc
          rw [if_neg hni, if_neg hni2]
    · have hni : ¬(((a : Nat), b).1 = i ∧ ((a : Nat), b).2 ∈ List.range i) := by
        simp only [List.mem_range]
        omega
      rw [if_neg (fun hc => h3 hc.2), if_neg (fun hc => h3 hc.2), hrow (a, b),
        if_neg hni]

/-- Cellwise value of the upper-triangle pass of the DTW builder. -/
theorem dtw_upper_apply {α : Type} [Zero α] (n : Nat) (fd : Nat → Nat → α)
    (p : Nat × Nat) :
    dtw_upper n fd p =
      if p.1 < n ∧ p.1 ≤ p.2 ∧ p.2 < n then fd p.1 p.2 else 0 := by
  obtain ⟨a, b⟩ := p
  unfold dtw_upper
  rw [foldl_table_apply_uc]
  simp only [List.mem_range, List.mem_range'_1]
  by_cases h : a < n ∧ a ≤ b ∧ b < n
  · rw [if_pos (by omega), if_pos h]
  · rw [if_neg (by omega), if_neg h]

/-- Cellwise value of the finished DTW distance matrix: the engine's value
at the sorted index pair inside the `n × n` square, zero outside it. -/
theorem dtw_distance_matrix_apply {α : Type} [Zero α] (n : Nat)
    (fd : Nat → Nat → α) (p : Nat × Nat) :
    dtw_distance_matrix n fd p =
      if p.1 < n ∧ p.2 < n then
        (if p.2 < p.1 then fd p.2 p.1 else fd p.1 p.2)
      else 0 := by
  obtain ⟨a, b⟩ := p
  unfold dtw_distance_matrix dtw_mirror
  rw [foldl_mirror_apply]
  rw [dtw_upper_apply, dtw_upper_apply]
  simp only [List.mem_range]
  split_ifs <;> first | rfl | (exfalso; omega)

/-- C5: the semantic (DTW) distance matrix produced by the builder is
symmetric — the alignment engine `fd` is invoked only for pairs `i ≤ j`
(the finished entry is `fd (min i j) (max i j)`), the strict lower
triangle being mirrored from the upper one, so `dist[i][j] = dist[j][i]`
for all `i, j` below the node count. -/
theorem c5_dtw_matrix_symmetric {α : Type} [Zero α] (n : Nat)
    (fd : Nat → Nat → α) (i j : Nat) (hi : i < n) (hj : j < n) :
    dtw_distance_matrix n fd (i, j) = dtw_distance_matrix n fd (j, i) ∧
    dtw_distance_matrix n fd (i, j) = fd (min i j) (max i j) := by
  simp only [dtw_distance_matrix_apply]
  rw [if_pos (⟨hi, hj⟩ : i < n ∧ j < n), if_pos (⟨hj, hi⟩ : j < n ∧ i < n)]
  constructor
  · split_ifs <;> first | rfl | (exfalso; omega) | (congr 1 <;> omega)
  · split_ifs <;> (congr 1 <;> omega)

/-- Witness for C5 at a concrete matrix: `n = 3`, engine value `10·i + j`,
cell `(2, 1)` mirrors cell `(1, 2)`. -/
theorem c5_dtw_matrix_symmetric_witness :
    ((2 : Nat) < 3 ∧ (1 : Nat) < 3) ∧
    (dtw_distance_matrix 3 (fun i j => 10 * i + j) (2, 1) =
        dtw_distance_matrix 3 (fun i j => 10 * i + j) (1, 2) ∧
      dtw_distance_matrix 3 (fun i j => 10 * i + j) (2, 1) =
        (fun i j => 10 * i + j) (min 2 1) (max 2 1)) :=
  ⟨⟨by omega, by omega⟩,
   c5_dtw_matrix_symmetric 3 (fun i j => 10 * i + j) 2 1
     (by omega) (by omega)⟩


/-! ## C6: the spatial distance matrix defaults to infinity and is symmetric -/

/-- One edge row keeps a symmetric matrix symmetric: both directions are
written with the same value. -/
theorem spatial_step_symm (M : Nat × Nat → Option ℚ) (row : Nat × Nat × ℚ)
    (hM : ∀ i j, M (i, j) = M (j, i)) (i j : Nat) :
    spatial_step M row (i, j) = spatial_step M row (j, i) := by
  obtain ⟨s, e, d⟩ := row
  simp only [spatial_step, updM]
  by_cases h1 : i = e <;> by_cases h2 : j = s <;> by_cases h3 : i = s <;>
    by_cases h4 : j = e <;> simp_all [Prod.ext_iff]

/-- The fold over any list of edge rows preserves symmetry of the
accumulated matrix. -/
theorem spatial_foldl_symm (rows : List (Nat × Nat × ℚ)) (M : Nat × Nat → Option ℚ)
    (hM : ∀ i j, M (i, j) = M (j, i)) (i j : Nat) :
    rows.foldl spatial_step M (i, j) = rows.foldl spatial_step M (j, i) := by
  induction rows generalizing M with
  | nil => exact hM i j
  | cons r rows ih =>
    simp only [List.foldl_cons]
    exact ih (spatial_step M r) (fun a b => spatial_step_symm M r hM a b)

/-- A cell no row of the edge list touches keeps its initial value. -/
theorem spatial_foldl_untouched (rows : List (Nat × Nat × ℚ))
    (M : Nat × Nat → Option ℚ) (i j : Nat)
    (h : rows.all (fun row => ! touches row i j)) :
    rows.foldl spatial_step M (i, j) = M (i, j) := by
  induction rows generalizing M with
  | nil => rfl
  | cons r rows ih =>
    simp only [List.all_cons, Bool.and_eq_true] at h
    simp only [List.foldl_cons]
    rw [ih (spatial_step M r) h.2]
    obtain ⟨s, e, d⟩ := r
    simp only [touches, Bool.not_eq_true', Bool.or_eq_false_iff,
      Bool.and_eq_false_iff, beq_eq_false_iff_ne] at h
    simp only [spatial_step, updM]
    rw [if_neg, if_neg]
    · intro hc
      rw [Prod.mk.injEq] at hc
      rcases h.1.1 with hne | hne
      · exact hne hc.1.symm
      · exact hne hc.2.symm
    · intro hc
      rw [Prod.mk.injEq] at hc
      rcases h.1.2 with hne | hne
      · exact hne hc.2.symm
      · exact hne hc.1.symm

/-- C6: the spatial distance matrix built from the parsed edge list — every
parsed row `(start, end, d)` sets both `[start][end]` and `[end][start]`
to `d`, every cell no row touches keeps the default value infinity
(`none`), and the finished matrix is symmetric. -/
theorem c6_spatial_matrix (rows : List (Nat × Nat × ℚ)) (i j : Nat) :
    (∀ M row, spatial_step M row (row.1, row.2.1) = some row.2.2 ∧
      spatial_step M row (row.2.1, row.1) = some row.2.2) ∧
    (rows.all (fun row => ! touches row i j) →
      spatial_dist_matrix rows (i, j) = none) ∧
    spatial_dist_matrix rows (i, j) = spatial_dist_matrix rows (j, i) := by
  refine ⟨?_, ?_, ?_⟩
  · intro M row
    obtain ⟨s, e, d⟩ := row
    constructor
    · simp only [spatial_step, updM]
      by_cases h : ((s : Nat), e) = (e, s)
      · rw [if_pos h]
      · simp [h]
    · simp only [spatial_step]
      rw [updM_same]
  · intro h
    exact spatial_foldl_untouched rows (fun _ => none) i j h
  · exact spatial_foldl_symm rows (fun _ => none) (fun _ _ => rfl) i j

/-! ## C7: the constructed graph's edges are exactly the finite-distance pairs -/

/-- One row of the graph-building loop, for a symmetric distance matrix:
after `for j in js: if dist (i, j) finite: add_edge i j`, a cell `(a, b)`
holds the (finite) distance `dist (a, b)` exactly when it is one of the
two directions of an added edge, and is untouched otherwise. -/
theorem generate_graph_row_apply (dist : Nat × Nat → Option ℚ)
    (hsym : ∀ a b, dist (a, b) = dist (b, a)) (i : Nat) (js : List Nat)
    (adj : Nat × Nat → Option ℚ) (p : Nat × Nat) :
    (js.foldl
        (fun N j =>
          match dist (i, j) with
          | some w => add_edge N i j w
          | none => N) adj) p =
      if ((p.1 = i ∧ p.2 ∈ js) ∨ (p.2 = i ∧ p.1 ∈ js)) ∧ (dist p).isSome then
        dist p
      else adj p := by
  obtain ⟨a, b⟩ := p
  induction js generalizing adj with
  | nil => simp
  | cons j js ih =>
    simp only [List.foldl_cons, ih, List.mem_cons]
    rcases hd : dist (i, j) with _ | w
    · -- nothing is written for this column
      by_cases hA : ((a = i ∧ b ∈ js) ∨ (b = i ∧ a ∈ js)) ∧
          (dist (a, b)).isSome
      · rw [if_pos hA, if_pos]
        rcases hA.1 with ⟨h1, h2⟩ | ⟨h1, h2⟩
        · exact ⟨Or.inl ⟨h1, Or.inr h2⟩, hA.2⟩
        · exact ⟨Or.inr ⟨h1, Or.inr h2⟩, hA.2⟩
      · rw [if_neg hA, if_neg]
        rintro ⟨⟨h1, h2 | h2⟩ | ⟨h1, h2 | h2⟩, hs⟩
        · -- (a, b) = (i, j): but dist (i, j) = none
          rw [h1, h2, hd] at hs
          exact Bool.noConfusion hs
        · exact hA ⟨Or.inl ⟨h1, h2⟩, hs⟩
        · -- (a, b) = (j, i): dist (j, i) = dist (i, j) = none
          rw [h2, h1, hsym j i, hd] at hs
          exact Bool.noConfusion hs
        · exact hA ⟨Or.inr ⟨h1, h2⟩, hs⟩
    · -- the edge (i, j) is added in both directions
      by_cases hA : ((a = i ∧ b ∈ js) ∨ (b = i ∧ a ∈ js)) ∧
          (dist (a, b)).isSome
      · rw [if_pos hA, if_pos]
        rcases hA.1 with ⟨h1, h2⟩ | ⟨h1, h2⟩
        · exact ⟨Or.inl ⟨h1, Or.inr h2⟩, hA.2⟩
        · exact ⟨Or.inr ⟨h1, Or.inr h2⟩, hA.2⟩
      · rw [if_neg hA]
        by_cases hp : ((a : Nat), b) = (j, i)
        · rw [Prod.mk.injEq] at hp
          have hval : dist (a, b) = some w := by
            rw [hp.1, hp.2, hsym j i, hd]
          rw [if_pos ⟨Or.inr ⟨hp.2, Or.inl hp.1⟩, by rw [hval]; rfl⟩, hval]
          simp only [add_edge]
          rw [show ((a : Nat), b) = (j, i) from by rw [hp.1, hp.2], updM_same]
        · by_cases hq : ((a : Nat), b) = (i, j)
          · rw [Prod.mk.injEq] at hq
            have hval : dist (a, b) = some w := by
              rw [hq.1, hq.2, hd]
            rw [if_pos ⟨Or.inl ⟨hq.1, Or.inl hq.2⟩, by rw [hval]; rfl⟩, hval]
            simp only [add_edge]
            rw [updM_ne _ _ _ _ hp,
              show ((a : Nat), b) = (i, j) from by rw [hq.1, hq.2], updM_same]
          · have hno : ¬((((a : Nat) = i ∧ (b = j ∨ b ∈ js)) ∨
                (b = i ∧ (a = j ∨ a ∈ js))) ∧ (dist (a, b)).isSome) := by
              rintro ⟨⟨h1, h2 | h2⟩ | ⟨h1, h2 | h2⟩, hs⟩
              · exact hq (by rw [h1, h2])
              · exact hA ⟨Or.inl ⟨h1, h2⟩, hs⟩
              · exact hp (by rw [h1, h2])
              · exact hA ⟨Or.inr ⟨h1, h2⟩, hs⟩
            rw [if_neg hno]
            simp only [add_edge]
            rw [updM_ne _ _ _ _ hp, updM_ne _ _ _ _ hq]

/-- The full graph-building double loop, for a symmetric distance matrix,
characterised cellwise. -/
theorem generate_graph_fold_apply (dist : Nat × Nat → Option ℚ)
    (hsym : ∀ a b, dist (a, b) = dist (b, a)) (S : List Nat) (is : List Nat)
    (adj : Nat × Nat → Option ℚ) (p : Nat × Nat) :
    (is.foldl
        (fun N i => S.foldl
          (fun N j =>
            match dist (i, j) with
            | some w => add_edge N i j w
            | none => N) N) adj) p =
      if ((p.1 ∈ is ∧ p.2 ∈ S) ∨ (p.2 ∈ is ∧ p.1 ∈ S)) ∧ (dist p).isSome then
        dist p
      else adj p := by
  obtain ⟨a, b⟩ := p
  induction is generalizing adj with
  | nil => simp
  | cons i is ih =>
    simp only [List.foldl_cons, ih, List.mem_cons,
      generate_graph_row_apply dist hsym i S]
    by_cases hA : ((a ∈ is ∧ b ∈ S) ∨ (b ∈ is ∧ a ∈ S)) ∧ (dist (a, b)).isSome
    · rw [if_pos hA, if_pos]
      rcases hA.1 with ⟨h1, h2⟩ | ⟨h1, h2⟩
      · exact ⟨Or.inl ⟨Or.inr h1, h2⟩, hA.2⟩
      · exact ⟨Or.inr ⟨Or.inr h1, h2⟩, hA.2⟩
    · rw [if_neg hA]
      by_cases hB : ((a = i ∧ b ∈ S) ∨ (b = i ∧ a ∈ S)) ∧ (dist (a, b)).isSome
      · rw [if_pos hB, if_pos]
        rcases hB.1 with ⟨h1, h2⟩ | ⟨h1, h2⟩
        · exact ⟨Or.inl ⟨Or.inl h1, h2⟩, hB.2⟩
        · exact ⟨Or.inr ⟨Or.inl h1, h2⟩, hB.2⟩
      · rw [if_neg hB, if_neg]
        rintro ⟨⟨h1 | h1, h2⟩ | ⟨h1 | h1, h2⟩, hs⟩
        · exact hB ⟨Or.inl ⟨h1, h2⟩, hs⟩
        · exact hA ⟨Or.inl ⟨h1, h2⟩, hs⟩
        · exact hB ⟨Or.inr ⟨h1, h2⟩, hs⟩
        · exact hA ⟨Or.inr ⟨h1, h2⟩, hs⟩

/-- The adjacency of the graph `generate_graph` builds from a symmetric
distance matrix: exactly the pairs of subset nodes with a finite distance,
at that distance. -/
theorem generate_graph_apply (selected_nodes : List Nat)
    (dist : Nat × Nat → Option ℚ) (hsym : ∀ a b, dist (a, b) = dist (b, a))
    (i j : Nat) :
    generate_graph selected_nodes dist (i, j) =
      if i ∈ selected_nodes ∧ j ∈ selected_nodes then dist (i, j) else none := by
  unfold generate_graph
  rw [generate_graph_fold_apply dist hsym]
  by_cases hm : i ∈ selected_nodes ∧ j ∈ selected_nodes
  · by_cases hs : (dist (i, j)).isSome
    · rw [if_pos ⟨Or.inl hm, hs⟩, if_pos hm]
    · rw [if_neg (fun hc => hs hc.2), if_pos hm,
        Option.not_isSome_iff_eq_none.mp hs]
  · have hno : ¬(((i ∈ selected_nodes ∧ j ∈ selected_nodes) ∨
        (j ∈ selected_nodes ∧ i ∈ selected_nodes)) ∧ (dist (i, j)).isSome) := by
      rintro ⟨⟨h1, h2⟩ | ⟨h1, h2⟩, -⟩
      · exact hm ⟨h1, h2⟩
      · exact hm ⟨h2, h1⟩
    rw [if_neg hno, if_neg hm]

/-- The synthetic 4-node distance matrix is symmetric. -/
theorem dist4_symm (a b : Nat) : dist4 (a, b) = dist4 (b, a) := by
  simp only [dist4, Prod.mk.injEq]
  split_ifs <;> first | rfl | omega

/-- Cellwise value of the adjacency of the 4-node example graph. -/
theorem g4_apply (i j : Nat) :
    g4 (i, j) = if i ∈ [0, 1, 2, 3] ∧ j ∈ [0, 1, 2, 3] then dist4 (i, j) else none :=
  generate_graph_apply [0, 1, 2, 3] dist4 dist4_symm i j

/-- A single step of the 4-node graph starting in `{0, 1}` stays in `{0, 1}`. -/
theorem g4_step_left {j k : Nat} (hj : j = 0 ∨ j = 1)
    (hs : (g4 (j, k)).isSome) : k = 0 ∨ k = 1 := by
  rw [g4_apply] at hs
  by_cases hk : j ∈ [0, 1, 2, 3] ∧ k ∈ [0, 1, 2, 3]
  · rw [if_pos hk] at hs
    have hkmem := hk.2
    simp only [List.mem_cons, List.not_mem_nil, or_false] at hkmem
    rcases hj with rfl | rfl <;>
      rcases hkmem with rfl | rfl | rfl | rfl <;>
      simp_all [dist4]
  · rw [if_neg hk] at hs
    exact Bool.noConfusion hs

/-- Everything reachable from `{0, 1}` in the 4-node graph lies in `{0, 1}`. -/
theorem g4_reach_left {s x : Nat} (hs : s = 0 ∨ s = 1) (h : Reach g4 s x) :
    x = 0 ∨ x = 1 := by
  induction h with
  | refl => exact hs
  | step hr hstep ih => exact g4_step_left ih hstep

/-- C7: `generate_graph` over a symmetric distance matrix returns the
undirected graph whose edges are exactly the subset pairs with finite
distance, at that distance (so a finite diagonal entry of a subset node
yields a self-loop, `i == j` not being filtered); on the synthetic 4-node
example the graph has exactly two edges and no path from `{0, 1}` to
`{2, 3}`. -/
theorem c7_generate_graph (selected_nodes : List Nat)
    (dist : Nat × Nat → Option ℚ) (hsym : ∀ a b, dist (a, b) = dist (b, a)) :
    (∀ i j, generate_graph selected_nodes dist (i, j) =
        if i ∈ selected_nodes ∧ j ∈ selected_nodes then dist (i, j) else none) ∧
    (∀ i ∈ selected_nodes, generate_graph selected_nodes dist (i, i) = dist (i, i)) ∧
    edgeCountUpTo g4 4 = 2 ∧
    (¬ Reach g4 0 2 ∧ ¬ Reach g4 0 3 ∧ ¬ Reach g4 1 2 ∧ ¬ Reach g4 1 3) := by
  refine ⟨generate_graph_apply selected_nodes dist hsym, ?_, ?_, ?_, ?_, ?_, ?_⟩
  · intro i hi
    rw [generate_graph_apply selected_nodes dist hsym, if_pos ⟨hi, hi⟩]
  · decide
  · intro h
    rcases g4_reach_left (Or.inl rfl) h with h2 | h2 <;> omega
  · intro h
    rcases g4_reach_left (Or.inl rfl) h with h2 | h2 <;> omega
  · intro h
    rcases g4_reach_left (Or.inr rfl) h with h2 | h2 <;> omega
  · intro h
    rcases g4_reach_left (Or.inr rfl) h with h2 | h2 <;> omega

/-- Witness for C7: the characterisation applied to the concrete symmetric
matrix `dist4` over the subset `[0, 1]`. -/
theorem c7_generate_graph_witness :
    (∀ a b, dist4 (a, b) = dist4 (b, a)) ∧
    ((∀ i j, generate_graph [0, 1] dist4 (i, j) =
        if i ∈ [0, 1] ∧ j ∈ [0, 1] then dist4 (i, j) else none) ∧
    (∀ i ∈ [0, 1], generate_graph [0, 1] dist4 (i, i) = dist4 (i, i)) ∧
    edgeCountUpTo g4 4 = 2 ∧
    (¬ Reach g4 0 2 ∧ ¬ Reach g4 0 3 ∧ ¬ Reach g4 1 2 ∧ ¬ Reach g4 1 3)) :=
  ⟨dist4_symm, c7_generate_graph [0, 1] dist4 dist4_symm⟩

/-! ## C8: node subset selection -/

/-- C8: with a sampler obeying `np.random.choice`'s documented contract
(`choice n k` returns `k` distinct indices drawn from `[0, n)` whenever
`k ≤ n`), `read_data` selects all `N` node indices when `N ≤ 100` and
exactly `100` distinct indices below `N` when `N > 100`. -/
theorem c8_select_nodes (choice : Nat → Nat → List Nat)
    (hchoice : ∀ n k, k ≤ n →
      (choice n k).length = k ∧ (choice n k).Nodup ∧ ∀ x ∈ choice n k, x < n)
    (num_nodes : Nat) :
    (num_nodes ≤ 100 → select_nodes choice num_nodes = List.range num_nodes) ∧
    (num_nodes > 100 →
      (select_nodes choice num_nodes).length = 100 ∧
      (select_nodes choice num_nodes).Nodup ∧
      ∀ x ∈ select_nodes choice num_nodes, x < num_nodes) := by
  constructor
  · intro h
    rw [select_nodes, if_neg (by omega)]
  · intro h
    rw [select_nodes, if_pos h]
    exact hchoice num_nodes 100 (by omega)

/-- Witness for C8: the first-`k` sampler satisfies the contract; at
`N = 5` the selection is all five indices, at `N = 150` it is 100 distinct
indices below 150. -/
theorem c8_select_nodes_witness :
    (select_nodes (fun _ k => List.range k) 5 = List.range 5) ∧
    ((select_nodes (fun _ k => List.range k) 150).length = 100 ∧
      (select_nodes (fun _ k => List.range k) 150).Nodup ∧
      ∀ x ∈ select_nodes (fun _ k => List.range k) 150, x < 150) := by
  have hc : ∀ n k : Nat, k ≤ n →
      ((fun _ k => List.range k) n k).length = k ∧
      ((fun _ k => List.range k) n k).Nodup ∧
      ∀ x ∈ (fun _ k => List.range k) n k, x < n := by
    intro n k hk
    exact ⟨List.length_range k, List.nodup_range k,
      fun x hx => lt_of_lt_of_le (List.mem_range.mp hx) hk⟩
  exact ⟨(c8_select_nodes _ hc 5).1 (by omega),
    (c8_select_nodes _ hc 150).2 (by omega)⟩

/-! ## C1: both similarity matrices are identical and zero off the subset -/

/-- One row of the pair-valued similarity loop equals the same row of the
single-matrix loop run on each component: the body writes the same value
into both matrices. -/
theorem pair_fold_row {α : Type} [Sub α] [Zero α] (nrm : List α → α)
    (E : Nat → Option (List α)) (i : Nat) (js : List Nat)
    (A B : Nat × Nat → α) :
    js.foldl
      (fun Q j =>
        if i ≠ j ∧ (E i).isSome ∧ (E j).isSome then
          (updM Q.1 i j (nrm (vsub ((E i).getD []) ((E j).getD []))),
           updM Q.2 i j (nrm (vsub ((E i).getD []) ((E j).getD []))))
        else Q)
      (A, B) =
    (js.foldl
      (fun M j =>
        if i ≠ j ∧ (E i).isSome ∧ (E j).isSome then
          updM M i j (nrm (vsub ((E i).getD []) ((E j).getD [])))
        else M)
      A,
     js.foldl
      (fun M j =>
        if i ≠ j ∧ (E i).isSome ∧ (E j).isSome then
          updM M i j (nrm (vsub ((E i).getD []) ((E j).getD [])))
        else M)
      B) := by
  induction js generalizing A B with
  | nil => rfl
  | cons j js ih =>
    simp only [List.foldl_cons]
    by_cases hc : i ≠ j ∧ (E i).isSome ∧ (E j).isSome
    · rw [if_pos hc, if_pos hc, if_pos hc, ih]
    · rw [if_neg hc, if_neg hc, if_neg hc, ih]

/-- The full pair-valued similarity loop equals the single-matrix loop run
on each component. -/
theorem pair_fold_table {α : Type} [Sub α] [Zero α] (nrm : List α → α)
    (E : Nat → Option (List α)) (S : List Nat) (is : List Nat)
    (A B : Nat × Nat → α) :
    is.foldl
      (fun Q i => S.foldl
        (fun Q j =>
          if i ≠ j ∧ (E i).isSome ∧ (E j).isSome then
            (updM Q.1 i j (nrm (vsub ((E i).getD []) ((E j).getD []))),
             updM Q.2 i j (nrm (vsub ((E i).getD []) ((E j).getD []))))
          else Q)
        Q)
      (A, B) =
    (is.foldl
      (fun M i => S.foldl
        (fun M j =>
          if i ≠ j ∧ (E i).isSome ∧ (E j).isSome then
            updM M i j (nrm (vsub ((E i).getD []) ((E j).getD [])))
          else M)
        M)
      A,
     is.foldl
      (fun M i => S.foldl
        (fun M j =>
          if i ≠ j ∧ (E i).isSome ∧ (E j).isSome then
            updM M i j (nrm (vsub ((E i).getD []) ((E j).getD [])))
          else M)
        M)
      B) := by
  induction is generalizing A B with
  | nil => rfl
  | cons i is ih =>
    simp only [List.foldl_cons]
    rw [pair_fold_row nrm E i S A B]
    exact ih _ _

/-- Both components of the similarity-matrix pair equal the single-matrix
loop. -/
theorem read_data_similarity_eq_derive_one {α : Type} [Sub α] [Zero α]
    (nrm : List α → α) (node_embeddings : Nat → Option (List α))
    (selected_nodes : List Nat) :
    read_data_similarity nrm node_embeddings selected_nodes =
      (derive_one nrm node_embeddings selected_nodes,
       derive_one nrm node_embeddings selected_nodes) := by
  unfold read_data_similarity derive_one
  exact pair_fold_table nrm node_embeddings selected_nodes selected_nodes _ _

/-- Cellwise value of the single-matrix similarity loop. -/
theorem derive_one_apply {α : Type} [Sub α] [Zero α] (nrm : List α → α)
    (E : Nat → Option (List α)) (S : List Nat) (p : Nat × Nat) :
    derive_one nrm E S p =
      if p.1 ∈ S ∧ p.2 ∈ S ∧ p.1 ≠ p.2 ∧ (E p.1).isSome ∧ (E p.2).isSome then
        nrm (vsub ((E p.1).getD []) ((E p.2).getD []))
      else 0 := by
  unfold derive_one
  have h := foldl_table_apply
    (fun i j => i ≠ j ∧ (E i).isSome ∧ (E j).isSome)
    (fun i j => nrm (vsub ((E i).getD []) ((E j).getD [])))
    (fun _ => S) S (fun _ => 0) p
  rw [h]

/-- C1: the two similarity matrices `read_data` returns are identical —
the derivation writes the same Euclidean norm of the embedding difference
into both the semantic and the spatial output at every ordered pair of
distinct subset nodes present in the embedding table, and leaves every
other cell of both `N × N` matrices zero. -/
theorem c1_similarity_matrices (N : Nat) (selected_nodes : List Nat)
    (node_embeddings : Nat → Option (List ℝ))
    (hS : ∀ s ∈ selected_nodes, s < N) :
    (read_data_matrices node_embeddings selected_nodes).1 =
      (read_data_matrices node_embeddings selected_nodes).2 ∧
    ∀ i j,
      (i ∈ selected_nodes ∧ j ∈ selected_nodes ∧ i ≠ j ∧
          (node_embeddings i).isSome ∧ (node_embeddings j).isSome →
        (read_data_matrices node_embeddings selected_nodes).1 (i, j) =
          euclNorm (vsub ((node_embeddings i).getD [])
            ((node_embeddings j).getD []))) ∧
      (¬(i ∈ selected_nodes ∧ j ∈ selected_nodes ∧ i ≠ j ∧
          (node_embeddings i).isSome ∧ (node_embeddings j).isSome) →
        (read_data_matrices node_embeddings selected_nodes).1 (i, j) = 0 ∧
        (read_data_matrices node_embeddings selected_nodes).2 (i, j) = 0) := by
  have he : read_data_matrices node_embeddings selected_nodes =
      (derive_one euclNorm node_embeddings selected_nodes,
       derive_one euclNorm node_embeddings selected_nodes) :=
    read_data_similarity_eq_derive_one euclNorm node_embeddings selected_nodes
  refine ⟨by rw [he], fun i j => ⟨?_, ?_⟩⟩
  · intro hcond
    rw [he]
    show derive_one euclNorm node_embeddings selected_nodes (i, j) = _
    rw [derive_one_apply, if_pos hcond]
  · intro hcond
    rw [he]
    constructor
    · show derive_one euclNorm node_embeddings selected_nodes (i, j) = 0
      rw [derive_one_apply, if_neg hcond]
    · show derive_one euclNorm node_embeddings selected_nodes (i, j) = 0
      rw [derive_one_apply, if_neg hcond]

/-- Witness for C1: both matrices derived from the two-node table over the
subset `[0, 1]` with `N = 2`. -/
theorem c1_similarity_matrices_witness :
    (∀ s ∈ [0, 1], s < 2) ∧
    ((read_data_matrices embed2 [0, 1]).1 = (read_data_matrices embed2 [0, 1]).2 ∧
    ∀ i j,
      (i ∈ [0, 1] ∧ j ∈ [0, 1] ∧ i ≠ j ∧
          (embed2 i).isSome ∧ (embed2 j).isSome →
        (read_data_matrices embed2 [0, 1]).1 (i, j) =
          euclNorm (vsub ((embed2 i).getD []) ((embed2 j).getD []))) ∧
      (¬(i ∈ [0, 1] ∧ j ∈ [0, 1] ∧ i ≠ j ∧
          (embed2 i).isSome ∧ (embed2 j).isSome) →
        (read_data_matrices embed2 [0, 1]).1 (i, j) = 0 ∧
        (read_data_matrices embed2 [0, 1]).2 (i, j) = 0)) := by
  have hS : ∀ s ∈ [0, 1], s < 2 := by
    intro s hs
    simp only [List.mem_cons, List.not_mem_nil, or_false] at hs
    rcases hs with rfl | rfl <;> omega
  exact ⟨hS, c1_similarity_matrices 2 [0, 1] embed2 hS⟩

/-! ## C4: the adjacency normalizer computes the spec's formula -/

/-- The row sum the code computes (a sum over `List.range`) is the `Fin`
sum of the spec's formula. -/
theorem list_row_sum (A : NDArray ℝ) (n x : Nat) :
    ((List.range n).map fun jj => A.val [x, jj]).sum =
      ∑ y : Fin n, A.val [x, y.1] := by
  rw [show ((List.range n).map fun jj => A.val [x, jj]).sum =
      ∑ y in Finset.range n, A.val [x, y] from rfl, Finset.sum_range]

/-- C4: on a square 2-D input, `get_normalized_adj` returns (entrywise)
`(0.8/2) · (I + D^(-1/2) · A · D^(-1/2))` with `D` the row-sum vector
floored at `10e-5 = 1/10⁴`; on input of any other dimensionality it fails
with the shape error instead of returning a matrix. -/
theorem c4_get_normalized_adj (n : Nat) (A : NDArray ℝ) (hsh : A.shape = [n, n]) :
    (∃ R : NDArray ℝ,
      get_normalized_adj Real.sqrt A = Except.ok R ∧ R.shape = [n, n] ∧
      ∀ i j : Fin n, R.val [i.1, j.1] =
        specNormalizedAdj Real.sqrt
          (Matrix.of fun a b : Fin n => A.val [a.1, b.1]) i j) ∧
    ∀ B : NDArray ℝ, B.shape.length ≠ 2 →
      get_normalized_adj Real.sqrt B =
        Except.error "The adjacency matrix A must be 2-dimensional" := by
  constructor
  · unfold get_normalized_adj
    rw [hsh]
    rw [if_neg (by simp)]
    refine ⟨_, rfl, rfl, ?_⟩
    intro i j
    show (8 / 10 : ℝ) / 2 *
        ((if i.1 = j.1 then 1 else 0) +
          (Real.sqrt (if (((List.range ([n, n].getD 1 0)).map
              fun jj => A.val [i.1, jj]).sum) ≤ 1 / 10000 then 1 / 10000
            else ((List.range ([n, n].getD 1 0)).map
              fun jj => A.val [i.1, jj]).sum))⁻¹ *
          A.val [i.1, j.1] *
          (Real.sqrt (if (((List.range ([n, n].getD 1 0)).map
              fun jj => A.val [j.1, jj]).sum) ≤ 1 / 10000 then 1 / 10000
            else ((List.range ([n, n].getD 1 0)).map
              fun jj => A.val [j.1, jj]).sum))⁻¹) =
      specNormalizedAdj Real.sqrt
        (Matrix.of fun a b : Fin n => A.val [a.1, b.1]) i j
    simp only [specNormalizedAdj, Matrix.smul_apply, Matrix.add_apply,
      Matrix.one_apply, Matrix.mul_diagonal, Matrix.diagonal_mul,
      Matrix.of_apply, smul_eq_mul, List.getD, List.get?, Option.getD_some,
      list_row_sum, Fin.val_inj]
  · intro B hB
    unfold get_normalized_adj
    rw [if_pos hB]

/-- Witness for C4: the normalizer applied to the concrete square input
`adj2`. -/
theorem c4_get_normalized_adj_witness :
    adj2.shape = [2, 2] ∧
    ((∃ R : NDArray ℝ,
      get_normalized_adj Real.sqrt adj2 = Except.ok R ∧ R.shape = [2, 2] ∧
      ∀ i j : Fin 2, R.val [i.1, j.1] =
        specNormalizedAdj Real.sqrt
          (Matrix.of fun a b : Fin 2 => adj2.val [a.1, b.1]) i j) ∧
    ∀ B : NDArray ℝ, B.shape.length ≠ 2 →
      get_normalized_adj Real.sqrt B =
        Except.error "The adjacency matrix A must be 2-dimensional") :=
  ⟨rfl, c4_get_normalized_adj 2 adj2 rfl⟩

/-! ## C10: the normalizer preserves symmetry -/

/-- C10: for a symmetric non-negative square 2-D input, the matrix
`get_normalized_adj` returns is itself symmetric. -/
theorem c10_normalized_adj_symmetric (n : Nat) (A : NDArray ℝ)
    (hsh : A.shape = [n, n])
    (hsym : ∀ i j, i < n → j < n → A.val [i, j] = A.val [j, i])
    (hnn : ∀ i j, i < n → j < n → 0 ≤ A.val [i, j]) :
    ∃ R : NDArray ℝ, get_normalized_adj Real.sqrt A = Except.ok R ∧
      ∀ i j, i < n → j < n → R.val [i, j] = R.val [j, i] := by
  unfold get_normalized_adj
  rw [hsh, if_neg (by simp)]
  refine ⟨_, rfl, ?_⟩
  intro i j hi hj
  dsimp only
  rw [hsym i j hi hj]
  have hiff : (if i = j then (1 : ℝ) else 0) = (if j = i then 1 else 0) := by
    by_cases h : i = j
    · rw [if_pos h, if_pos h.symm]
    · rw [if_neg h, if_neg (fun hc => h hc.symm)]
  rw [hiff]
  ring

/-- Witness for C10: the symmetric non-negative input `adj2`. -/
theorem c10_normalized_adj_symmetric_witness :
    adj2.shape = [2, 2] ∧
    (∀ i j, i < 2 → j < 2 → adj2.val [i, j] = adj2.val [j, i]) ∧
    (∀ i j, i < 2 → j < 2 → (0 : ℝ) ≤ adj2.val [i, j]) ∧
    (∃ R : NDArray ℝ, get_normalized_adj Real.sqrt adj2 = Except.ok R ∧
      ∀ i j, i < 2 → j < 2 → R.val [i, j] = R.val [j, i]) := by
  have hsym : ∀ i j, i < 2 → j < 2 → adj2.val [i, j] = adj2.val [j, i] := by
    intro i j _ _
    show (if i = j then (0 : ℝ) else 1) = if j = i then 0 else 1
    by_cases h : i = j
    · rw [if_pos h, if_pos h.symm]
    · rw [if_neg h, if_neg (fun hc => h hc.symm)]
  have hnn : ∀ i j, i < 2 → j < 2 → (0 : ℝ) ≤ adj2.val [i, j] := by
    intro i j _ _
    show (0 : ℝ) ≤ if i = j then 0 else 1
    by_cases h : i = j
    · rw [if_pos h]
    · rw [if_neg h]
      exact zero_le_one
  exact ⟨rfl, hsym, hnn,
    c10_normalized_adj_symmetric 2 adj2 rfl hsym hnn⟩

/-! ## C2: the windowed dataset's length and examples -/

/-- A slice of a slice is a slice: `l[s:e][a:b] = l[s+a:s+b]` when the
inner window fits. -/
theorem sliceRows_sliceRows {β : Type} (l : List β) (s e a b : Nat)
    (hb : b ≤ e - s) :
    sliceRows (sliceRows l s e) a b = sliceRows l (s + a) (s + b) := by
  unfold sliceRows
  rw [List.drop_take, List.drop_drop, List.take_take]
  congr 1
  omega

/-- Length of a slice inside the list. -/
theorem sliceRows_length {β : Type} (l : List β) (a b : Nat)
    (hab : a ≤ b) (hbl : b ≤ l.length) : (sliceRows l a b).length = b - a := by
  unfold sliceRows
  rw [List.length_take, List.length_drop]
  omega

/-- Python's `int` on a float holding a natural number. -/
theorem pyInt_natCast (m : Nat) : pyInt (m : ℚ) = (m : ℤ) := by
  unfold pyInt
  rw [if_pos (Nat.cast_nonneg m), Int.floor_natCast]

/-- C2: for a windowed dataset over rows `[s, e)` of the data, the number
of exposed examples is `(e - s) - H - P + 1`, and the example at offset
`k` is the pair (rows `[k, k+H)` of the split permuted to node-major,
rows `[k+H, k+H+P)` restricted to the first feature channel and permuted
to node-major) — expressed directly in rows of the full data. -/
theorem c2_windowed_dataset (data : List (List (List ℚ))) (s e H P : Nat)
    (hse : s ≤ e) (hel : e ≤ data.length) :
    (MyDataset.make data (s : ℚ) (e : ℚ) H P).len =
      (e : ℤ) - s - H - P + 1 ∧
    ∀ k : Nat, k + H + P ≤ e - s →
      (MyDataset.make data (s : ℚ) (e : ℚ) H P).getItem k =
        ((sliceRows data (s + k) (s + k + H)).transpose,
         ((sliceRows data (s + k + H) (s + k + H + P)).map
            (fun row => row.map (fun cell => cell.headD 0))).transpose) := by
  have hdata : sliceRows data (pyInt (s : ℚ)).toNat (pyInt (e : ℚ)).toNat =
      sliceRows data s e := by
    rw [pyInt_natCast, pyInt_natCast, Int.toNat_natCast, Int.toNat_natCast]
  constructor
  · dsimp only [MyDataset.len, MyDataset.make]
    rw [hdata, sliceRows_length data s e hse hel]
    omega
  · intro k hk
    dsimp only [MyDataset.getItem, MyDataset.make]
    rw [hdata]
    rw [sliceRows_sliceRows data s e k (k + H) (by omega),
      sliceRows_sliceRows data s e (k + H) (k + H + P) (by omega)]
    rw [show s + (k + H) = s + k + H from by omega,
      show s + (k + H + P) = s + k + H + P from by omega]

/-- Witness for C2: a 100-row split with `H = 12`, `P = 3` exposes exactly
86 examples, and example 0 pairs history rows `[0, 12)` with channel 0 of
prediction rows `[12, 15)`. -/
theorem c2_windowed_dataset_witness :
    ((0 : Nat) ≤ 100 ∧ (100 : Nat) ≤ data100.length ∧
      0 + 12 + 3 ≤ 100 - 0) ∧
    (MyDataset.make data100 ((0 : Nat) : ℚ) ((100 : Nat) : ℚ) 12 3).len = 86 ∧
    (MyDataset.make data100 ((0 : Nat) : ℚ) ((100 : Nat) : ℚ) 12 3).getItem 0 =
      ((sliceRows data100 (0 + 0) (0 + 0 + 12)).transpose,
       ((sliceRows data100 (0 + 0 + 12) (0 + 0 + 12 + 3)).map
          (fun row => row.map (fun cell => cell.headD 0))).transpose) := by
  have hlen : data100.length = 100 := by
    rw [show data100.length =
        ((List.range 100).map fun t : Nat => [[(t : ℚ)]]).length from rfl,
      List.length_map, List.length_range]
  have h := c2_windowed_dataset data100 0 100 12 3 (by omega) (by omega)
  exact ⟨⟨by omega, by omega, by omega⟩, by rw [h.1]; rfl, h.2 0 (by omega)⟩

/-! ## C3: the generated split ranges partition the rows -/

/-- C3: for non-negative ratios summing to at most one, the three integer
row ranges `generate_dataset` hands to the train, validation and test
datasets (after the `int` truncation of `MyDataset.__init__`) are
contiguous, pairwise disjoint, and together cover `[0, T)` exactly. -/
theorem c3_split_ranges (T : Nat) (train_ratio valid_ratio : ℚ)
    (h1 : 0 ≤ train_ratio) (h2 : 0 ≤ valid_ratio)
    (h3 : train_ratio + valid_ratio ≤ 1) :
    (splitRanges T train_ratio valid_ratio).1.1 = 0 ∧
    (splitRanges T train_ratio valid_ratio).2.2.2 = T ∧
    (splitRanges T train_ratio valid_ratio).1.2 =
      (splitRanges T train_ratio valid_ratio).2.1.1 ∧
    (splitRanges T train_ratio valid_ratio).2.1.2 =
      (splitRanges T train_ratio valid_ratio).2.2.1 ∧
    ∀ t : ℤ,
      ((0 ≤ t ∧ t < T) ↔
        (memRange t (splitRanges T train_ratio valid_ratio).1 ∨
         memRange t (splitRanges T train_ratio valid_ratio).2.1 ∨
         memRange t (splitRanges T train_ratio valid_ratio).2.2)) ∧
      ¬(memRange t (splitRanges T train_ratio valid_ratio).1 ∧
        memRange t (splitRanges T train_ratio valid_ratio).2.1) ∧
      ¬(memRange t (splitRanges T train_ratio valid_ratio).1 ∧
        memRange t (splitRanges T train_ratio valid_ratio).2.2) ∧
      ¬(memRange t (splitRanges T train_ratio valid_ratio).2.1 ∧
        memRange t (splitRanges T train_ratio valid_ratio).2.2) := by
  have hT : (0 : ℚ) ≤ (T : ℚ) := Nat.cast_nonneg T
  have h12 : (0 : ℚ) ≤ train_ratio + valid_ratio := by linarith
  have hb1 : (0 : ℤ) ≤ pyInt ((T : ℚ) * train_ratio) := by
    unfold pyInt
    rw [if_pos (mul_nonneg hT h1)]
    exact Int.floor_nonneg.mpr (mul_nonneg hT h1)
  have hb12 : pyInt ((T : ℚ) * train_ratio) ≤
      pyInt ((T : ℚ) * (train_ratio + valid_ratio)) := by
    unfold pyInt
    rw [if_pos (mul_nonneg hT h1), if_pos (mul_nonneg hT h12)]
    exact Int.floor_le_floor (by nlinarith)
  have hb2T : pyInt ((T : ℚ) * (train_ratio + valid_ratio)) ≤ (T : ℤ) := by
    unfold pyInt
    rw [if_pos (mul_nonneg hT h12)]
    calc ⌊(T : ℚ) * (train_ratio + valid_ratio)⌋
        ≤ ⌊(T : ℚ)⌋ := Int.floor_le_floor (by nlinarith)
      _ = (T : ℤ) := Int.floor_natCast T
  unfold splitRanges memRange
  dsimp only
  refine ⟨rfl, rfl, rfl, rfl, fun t => ?_⟩
  generalize pyInt ((T : ℚ) * train_ratio) = b1 at hb1 hb12
  generalize pyInt ((T : ℚ) * (train_ratio + valid_ratio)) = b2 at hb12 hb2T
  refine ⟨⟨fun ht => by omega, fun ht => by omega⟩, by omega, by omega, by omega⟩

/-- Witness for C3: ratios `0.6 / 0.2` on `T = 100` give the ranges
`[0, 60), [60, 80), [80, 100)`. -/
theorem c3_split_ranges_witness :
    ((0 : ℚ) ≤ 3 / 5 ∧ (0 : ℚ) ≤ 1 / 5 ∧ (3 / 5 : ℚ) + 1 / 5 ≤ 1) ∧
    splitRanges 100 (3 / 5) (1 / 5) = ((0, 60), (60, 80), (80, 100)) ∧
    ((splitRanges 100 (3 / 5) (1 / 5)).1.1 = 0 ∧
    (splitRanges 100 (3 / 5) (1 / 5)).2.2.2 = 100 ∧
    (splitRanges 100 (3 / 5) (1 / 5)).1.2 =
      (splitRanges 100 (3 / 5) (1 / 5)).2.1.1 ∧
    (splitRanges 100 (3 / 5) (1 / 5)).2.1.2 =
      (splitRanges 100 (3 / 5) (1 / 5)).2.2.1 ∧
    ∀ t : ℤ,
      ((0 ≤ t ∧ t < 100) ↔
        (memRange t (splitRanges 100 (3 / 5) (1 / 5)).1 ∨
         memRange t (splitRanges 100 (3 / 5) (1 / 5)).2.1 ∨
         memRange t (splitRanges 100 (3 / 5) (1 / 5)).2.2)) ∧
      ¬(memRange t (splitRanges 100 (3 / 5) (1 / 5)).1 ∧
        memRange t (splitRanges 100 (3 / 5) (1 / 5)).2.1) ∧
      ¬(memRange t (splitRanges 100 (3 / 5) (1 / 5)).1 ∧
        memRange t (splitRanges 100 (3 / 5) (1 / 5)).2.2) ∧
      ¬(memRange t (splitRanges 100 (3 / 5) (1 / 5)).2.1 ∧
        memRange t (splitRanges 100 (3 / 5) (1 / 5)).2.2)) := by
  refine ⟨⟨by norm_num, by norm_num, by norm_num⟩, ?_, ?_⟩
  · show ((0, pyInt ((100 : ℚ) * (3 / 5))),
      (pyInt ((100 : ℚ) * (3 / 5)), pyInt ((100 : ℚ) * (3 / 5 + 1 / 5))),
      (pyInt ((100 : ℚ) * (3 / 5 + 1 / 5)), (100 : ℤ))) =
      ((0, 60), (60, 80), (80, 100))
    norm_num [pyInt]
  · have h := c3_split_ranges 100 (3 / 5) (1 / 5)
      (by norm_num) (by norm_num) (by norm_num)
    exact h

/-! ## C9: splits shorter than `H + P` fail with a `ValueError` -/

/-- Helper: the reported length of a short split is non-positive. -/
theorem make_short_len_nonpos (data : List (List (List ℚ))) (s e H P : Nat)
    (hse : s ≤ e) (hel : e ≤ data.length) (hshort : e - s < H + P) :
    (MyDataset.make data (s : ℚ) (e : ℚ) H P).len ≤ 0 := by
  dsimp only [MyDataset.len, MyDataset.make]
  rw [pyInt_natCast, pyInt_natCast, Int.toNat_natCast, Int.toNat_natCast,
    sliceRows_length data s e hse hel]
  omega

/-- C9 (amended): a split whose row range is shorter than `H + P` reports
a non-positive number of examples, so iterating it through the loader
fails with a `ValueError` — not an `IndexError` — and yields no
examples. -/
theorem c9_short_split_value_error (data : List (List (List ℚ)))
    (s e H P : Nat) (hse : s ≤ e) (hel : e ≤ data.length)
    (hshort : e - s < H + P) :
    loaderExamples (MyDataset.make data (s : ℚ) (e : ℚ) H P) =
      Except.error PyError.valueError ∧
    ∀ xs, loaderExamples (MyDataset.make data (s : ℚ) (e : ℚ) H P) ≠
      Except.ok xs := by
  have hlen := make_short_len_nonpos data s e H P hse hel hshort
  constructor
  · unfold loaderExamples
    rw [if_pos hlen]
  · intro xs
    unfold loaderExamples
    rw [if_pos hlen]
    exact fun hc => Except.noConfusion hc

/-- Counterexample for C9 as stated: on a 10-row split with `H = 12`,
`P = 3`, the loader fails with a `ValueError`, not with an `IndexError`. -/
theorem c9_short_split_counterexample :
    loaderExamples (MyDataset.make data20 ((0 : Nat) : ℚ) ((10 : Nat) : ℚ) 12 3) =
      Except.error PyError.valueError ∧
    loaderExamples (MyDataset.make data20 ((0 : Nat) : ℚ) ((10 : Nat) : ℚ) 12 3) ≠
      Except.error PyError.indexError := by
  have hlen20 : data20.length = 20 := by
    rw [show data20.length =
        ((List.range 20).map fun t : Nat => [[(t : ℚ)]]).length from rfl,
      List.length_map, List.length_range]
  have hlen := make_short_len_nonpos data20 0 10 12 3 (by omega) (by omega)
    (by omega)
  have he : loaderExamples
      (MyDataset.make data20 ((0 : Nat) : ℚ) ((10 : Nat) : ℚ) 12 3) =
      Except.error PyError.valueError := by
    unfold loaderExamples
    rw [if_pos hlen]
  refine ⟨he, ?_⟩
  rw [he]
  intro hc
  exact PyError.noConfusion (Except.error.inj hc)

/-- Witness for C9's amended theorem at the same concrete short split. -/
theorem c9_short_split_value_error_witness :
    ((0 : Nat) ≤ 10 ∧ (10 : Nat) ≤ data20.length ∧ 10 - 0 < 12 + 3) ∧
    (loaderExamples (MyDataset.make data20 ((0 : Nat) : ℚ) ((10 : Nat) : ℚ) 12 3) =
        Except.error PyError.valueError ∧
    ∀ xs, loaderExamples
        (MyDataset.make data20 ((0 : Nat) : ℚ) ((10 : Nat) : ℚ) 12 3) ≠
      Except.ok xs) := by
  have hlen20 : data20.length = 20 := by
    rw [show data20.length =
        ((List.range 20).map fun t : Nat => [[(t : ℚ)]]).length from rfl,
      List.length_map, List.length_range]
  exact ⟨⟨by omega, by omega, by omega⟩,
    c9_short_split_value_error data20 0 10 12 3 (by omega) (by omega) (by omega)⟩
